import Mathlib

/-!
Verification development for the coffee-shop sales dashboard
(`app.py`).  The analytics engine is embedded shallowly: a pandas row
becomes a `TransactionLine`, the data frame a `List TransactionLine`,
and each aggregation of the `update_dashboard` callback a Lean
function on that list.  Monetary values are exact rationals.  The
frequent-itemset miner and the association-rule generator live in the
`mlxtend` library, whose code is not part of this repository; they are
modelled from the specification (sections 4.5 and 4.6), as marked in
their doc comments.
-/

/-- Model of one line of the sales table (`df` in `app.py`).  The
columns `CA`, `heure`, `jour_semaine` and `mois` are derived once at
load time (lines 8-12 of `app.py`); the three calendar-derived ones
are stored as fields because the loader, not the analytics engine,
computes them. -/
structure TransactionLine where
  transaction_id : Nat
  store_location : String
  product_detail : String
  transaction_qty : Nat
  unit_price : ℚ
  heure : Nat
  jour_semaine : String
  mois : String
deriving DecidableEq

/-- Line revenue, `df["CA"] = df["transaction_qty"] * df["unit_price"]`
(line 9 of `app.py`). -/
def CA (r : TransactionLine) : ℚ := (r.transaction_qty : ℚ) * r.unit_price

/-- Canonical weekday order `jour_order` (line 74 of `app.py`). -/
def jour_order : List String :=
  ["Monday", "Tuesday", "Wednesday", "Thursday", "Friday", "Saturday", "Sunday"]

/-- The filter step (line 54 of `app.py`): keep the rows whose store is
in the store selection and whose month is in the month selection, in
their original order. -/
def df_filtered (df : List TransactionLine) (store_selection mois_selection : List String) :
    List TransactionLine :=
  df.filter (fun r => decide (r.store_location ∈ store_selection ∧ r.mois ∈ mois_selection))

/-- KPI `total_ca` (line 57): the sum of line revenues. -/
def total_ca (rows : List TransactionLine) : ℚ := (rows.map CA).sum

/-- KPI `nb_transac` (line 58): the number of distinct transaction ids. -/
def nb_transac (rows : List TransactionLine) : Nat :=
  (rows.map (fun r => r.transaction_id)).dedup.length

/-- KPI `ticket_moyen` (line 59): average ticket, guarded against an
empty subset, `total_ca / nb_transac if nb_transac > 0 else 0`. -/
def ticket_moyen (rows : List TransactionLine) : ℚ :=
  if 0 < nb_transac rows then total_ca rows / (nb_transac rows : ℚ) else 0

/-- KPI `total_qty` (line 60): the sum of quantities. -/
def total_qty (rows : List TransactionLine) : Nat :=
  (rows.map (fun r => r.transaction_qty)).sum

/-- The ascending list of distinct keys of a pandas `groupby`: group
keys are deduplicated and sorted in ascending order. -/
def sortedKeys {κ : Type} [LinearOrder κ] [DecidableEq κ] (l : List κ) : List κ :=
  (l.dedup).insertionSort (· ≤ ·)

/-- A `groupby(key)["CA"].sum()`: one `(key, revenue)` pair per distinct
key, keys ascending, the value being the revenue summed over the rows
of that group. -/
def groupbySum {κ : Type} [LinearOrder κ] [DecidableEq κ] (key : TransactionLine → κ)
    (rows : List TransactionLine) : List (κ × ℚ) :=
  (sortedKeys (rows.map key)).map
    (fun k => (k, ((rows.filter (fun r => decide (key r = k))).map CA).sum))

/-- Monthly revenue series `ca_mois` (line 70): revenue grouped by month
bucket, months ascending. -/
def ca_mois (rows : List TransactionLine) : List (String × ℚ) :=
  groupbySum (fun r => r.mois) rows

/-- A pandas `reindex`: realign a keyed series along `order`, taking the
value found for each key, or a missing value (`none`, pandas `NaN`) for
keys the series does not carry. -/
def reindex {κ : Type} [DecidableEq κ] (series : List (κ × ℚ)) (order : List κ) :
    List (κ × Option ℚ) :=
  order.map (fun k => (k, (series.find? (fun p => decide (p.1 = k))).map Prod.snd))

/-- Weekday revenue series `ca_jour` (line 75): revenue grouped by
weekday name, then reindexed along the canonical weekday order.  Note
the source applies no `fillna`, so a weekday with no rows carries a
missing value. -/
def ca_jour (rows : List TransactionLine) : List (String × Option ℚ) :=
  reindex (groupbySum (fun r => r.jour_semaine) rows) jour_order

/-- The pandas sum of an optional-valued series: missing values (`NaN`)
are skipped, as `Series.sum` does with its default `skipna=True`. -/
def seriesSum (l : List (String × Option ℚ)) : ℚ := (l.filterMap Prod.snd).sum

/-- The ascending list of distinct hours present in the subset: these
are the columns of the `pivot_table` of line 79. -/
def hoursOf (rows : List TransactionLine) : List Nat :=
  sortedKeys (rows.map (fun r => r.heure))

/-- Heatmap `pivot` (line 79):
`pivot_table(index="jour_semaine", columns="heure", values="CA",
aggfunc="sum").fillna(0).reindex(jour_order)`.  Rows are reindexed
along the canonical weekday order; a weekday absent from the subset
yields a missing row (`none`), because the `fillna(0)` runs before the
`reindex`.  A present weekday row holds, for each observed hour column,
the summed revenue of that (weekday, hour) cell, the `fillna(0)` making
an empty cell `0`. -/
def pivot (rows : List TransactionLine) : List (String × Option (List ℚ)) :=
  jour_order.map (fun d =>
    (d, if d ∈ rows.map (fun r => r.jour_semaine) then
          some ((hoursOf rows).map (fun h =>
            ((rows.filter (fun r => decide (r.jour_semaine = d ∧ r.heure = h))).map CA).sum))
        else none))

/-- Comparison used by `nlargest` on the product-revenue series: keep
the pair with the larger revenue first.  `Series.nlargest` performs a
stable descending selection by value over the series, which `groupby`
has already arranged in ascending product order. -/
def revDesc (p q : String × ℚ) : Prop := q.2 ≤ p.2

instance : DecidableRel revDesc := fun p q => inferInstanceAs (Decidable (q.2 ≤ p.2))

instance : IsTotal (String × ℚ) revDesc where
  total p q := le_total q.2 p.2

instance : IsTrans (String × ℚ) revDesc where
  trans _ _ _ h₁ h₂ := le_trans h₂ h₁

/-- The order the stable descending selection realises on the
product-revenue series: descending revenue, ties broken by ascending
product name (the order `groupby` put the series in). -/
def prodLex (p q : String × ℚ) : Prop := q.2 < p.2 ∨ (p.2 = q.2 ∧ p.1 ≤ q.1)

instance : DecidableRel prodLex := fun p q => by
  unfold prodLex; infer_instance

instance : IsTotal (String × ℚ) prodLex where
  total p q := by
    unfold prodLex
    rcases lt_trichotomy p.2 q.2 with h | h | h
    · exact Or.inr (Or.inl h)
    · rcases le_total p.1 q.1 with h₂ | h₂
      · exact Or.inl (Or.inr ⟨h, h₂⟩)
      · exact Or.inr (Or.inr ⟨h.symm, h₂⟩)
    · exact Or.inl (Or.inl h)

instance : IsTrans (String × ℚ) prodLex where
  trans p q s h₁ h₂ := by
    unfold prodLex at h₁ h₂ ⊢
    rcases h₁ with h₁ | ⟨e₁, n₁⟩
    · rcases h₂ with h₂ | ⟨e₂, n₂⟩
      · exact Or.inl (h₂.trans h₁)
      · exact Or.inl (by rw [← e₂]; exact h₁)
    · rcases h₂ with h₂ | ⟨e₂, n₂⟩
      · exact Or.inl (by rw [e₁]; exact h₂)
      · exact Or.inr ⟨e₁.trans e₂, n₁.trans n₂⟩

instance : IsAntisymm (String × ℚ) prodLex where
  antisymm p q h₁ h₂ := by
    unfold prodLex at h₁ h₂
    rcases h₁ with h₁ | ⟨e₁, n₁⟩
    · rcases h₂ with h₂ | ⟨e₂, n₂⟩
      · exact absurd h₁ (lt_asymm h₂)
      · exact absurd (e₂ ▸ h₁) (lt_irrefl _)
    · rcases h₂ with h₂ | ⟨e₂, n₂⟩
      · exact absurd (e₁ ▸ h₂) (lt_irrefl _)
      · exact Prod.ext (le_antisymm n₁ n₂) e₁

/-- Top products `top` (line 83):
`groupby("product_detail")["CA"].sum().nlargest(n)` — the
product-revenue pairs, stably sorted by descending revenue, truncated
to the first `n`. -/
def top_produits (rows : List TransactionLine) (n : Nat) : List (String × ℚ) :=
  ((groupbySum (fun r => r.product_detail) rows).insertionSort revDesc).take n

/-- Baskets (lines 87-90): the rows are grouped by transaction id
(`groupby("transaction_id")["product_detail"].apply(list)`), and the
`TransactionEncoder` turns each transaction into the boolean row of its
distinct products over the sorted item columns; a basket is therefore
the sorted duplicate-free list of products of one transaction. -/
def transactions (rows : List TransactionLine) : List (List String) :=
  (sortedKeys (rows.map (fun r => r.transaction_id))).map
    (fun t => sortedKeys ((rows.filter (fun r => decide (r.transaction_id = t))).map
      (fun r => r.product_detail)))

/-- Modelled from the spec: the number of baskets containing every
member of the itemset `s` (glossary of the specification; the miner of
section 4.5 is the `mlxtend` `apriori`, whose code is not in this
repository).  An itemset is a sorted duplicate-free list of items. -/
def supportCount {α : Type} [DecidableEq α] (baskets : List (List α)) (s : List α) : Nat :=
  (baskets.filter (fun b => s.all (fun x => decide (x ∈ b)))).length

/-- Modelled from the spec: the support of an itemset, the fraction of
baskets containing all its members (section 3 and glossary). -/
def support {α : Type} [DecidableEq α] (baskets : List (List α)) (s : List α) : ℚ :=
  (supportCount baskets s : ℚ) / (baskets.length : ℚ)

/-- Modelled from the spec: the retain test `support ≥ minSupport` of
section 4.5, written with cross-multiplied integers so that it is
kernel-computable; `isFrequent_iff_support` below proves it equal to
`θ ≤ support baskets s` whenever there is at least one basket. -/
def isFrequent {α : Type} [DecidableEq α] (baskets : List (List α)) (θ : ℚ) (s : List α) :
    Bool :=
  decide (θ.num * (baskets.length : ℤ) ≤ (supportCount baskets s : ℤ) * (θ.den : ℤ))

/-- Modelled from the spec: the item universe, as the `TransactionEncoder`
produces it — the sorted list of distinct items of all baskets. -/
def itemsOf {α : Type} [LinearOrder α] [DecidableEq α] (baskets : List (List α)) : List α :=
  sortedKeys baskets.flatten

/-- Modelled from the spec: step 1 of section 4.5, the frequent
1-itemsets. -/
def level1 {α : Type} [LinearOrder α] [DecidableEq α] (baskets : List (List α)) (θ : ℚ) :
    List (List α) :=
  ((itemsOf baskets).map (fun x => [x])).filter (isFrequent baskets θ)

/-- Modelled from the spec: the join of step 2 of section 4.5 — two
(k−1)-itemsets sharing a (k−2)-prefix produce one k-candidate. -/
def joinStep {α : Type} [LinearOrder α] [DecidableEq α] (a b : List α) : Option (List α) :=
  match a.getLast?, b.getLast? with
  | some x, some y =>
    if a.dropLast = b.dropLast ∧ x < y then some (a ++ [y]) else none
  | _, _ => none

/-- Modelled from the spec: all k-candidates joined from a level of
(k−1)-itemsets. -/
def candidatesOf {α : Type} [LinearOrder α] [DecidableEq α] (prev : List (List α)) :
    List (List α) :=
  prev.flatMap (fun a => prev.filterMap (fun b => joinStep a b))

/-- Modelled from the spec: the anti-monotone pruning of section 4.5 —
drop any candidate having a (k−1)-subset outside the previous frequent
level.  The (k−1)-subsets of a k-itemset are its `eraseIdx` results. -/
def pruneStep {α : Type} [DecidableEq α] (prev cs : List (List α)) : List (List α) :=
  cs.filter (fun c => (List.range c.length).all (fun i => decide (c.eraseIdx i ∈ prev)))

/-- Modelled from the spec: one level step of section 4.5 — join,
prune, then retain the candidates meeting the support threshold. -/
def nextLevel {α : Type} [LinearOrder α] [DecidableEq α] (baskets : List (List α)) (θ : ℚ)
    (prev : List (List α)) : List (List α) :=
  (pruneStep prev (candidatesOf prev)).filter (isFrequent baskets θ)

/-- Modelled from the spec: the frequent itemsets of size `k`. -/
def aprioriLevel {α : Type} [LinearOrder α] [DecidableEq α] (baskets : List (List α)) (θ : ℚ) :
    Nat → List (List α)
  | 0 => []
  | 1 => level1 baskets θ
  | k + 2 => nextLevel baskets θ (aprioriLevel baskets θ (k + 1))

/-- Modelled from the spec: the frequent-itemset miner of section 4.5
(the `apriori` call of line 91 of `app.py`) — the union of all frequent
levels.  An itemset has at most as many items as the universe, so the
levels `1 .. |universe|` cover every level the loop of section 4.5 can
reach. -/
def apriori {α : Type} [LinearOrder α] [DecidableEq α] (baskets : List (List α)) (θ : ℚ) :
    List (List α) :=
  (List.range' 1 (itemsOf baskets).length).flatMap (fun k => aprioriLevel baskets θ k)

/-- Modelled from the spec: one association rule with the `mlxtend`
column names (section 4.6 and the data model of section 3). -/
structure AssocRule where
  antecedents : List String
  consequents : List String
  support : ℚ
  confidence : ℚ
  lift : ℚ
deriving DecidableEq

/-- Modelled from the spec: the `2^k − 2` proper bipartitions of a
frequent itemset into a non-empty antecedent and its complementary
non-empty consequent (section 4.6). -/
def bipartitions (s : List String) : List (List String × List String) :=
  (s.sublists.filter (fun a => decide (a ≠ [] ∧ a ≠ s))).map
    (fun a => (a, s.filter (fun x => decide (x ∉ a))))

/-- Modelled from the spec: the metrics of one rule `a ⟹ c` derived
from the frequent itemset `s` (section 3): support of the union,
confidence `support(s)/support(a)`, lift `confidence/support(c)`. -/
def mkRule (baskets : List (List String)) (s a c : List String) : AssocRule :=
  { antecedents := a
    consequents := c
    support := support baskets s
    confidence := support baskets s / support baskets a
    lift := support baskets s / support baskets a / support baskets c }

/-- Modelled from the spec: the presentation order of section 4.6 —
descending lift, ties by descending confidence, then by descending
support. -/
def ruleOrder (r₁ r₂ : AssocRule) : Prop :=
  r₂.lift < r₁.lift ∨
    (r₁.lift = r₂.lift ∧
      (r₂.confidence < r₁.confidence ∨
        (r₁.confidence = r₂.confidence ∧ r₂.support ≤ r₁.support)))

instance : DecidableRel ruleOrder := fun r₁ r₂ => by
  unfold ruleOrder; infer_instance

instance : IsTotal AssocRule ruleOrder where
  total r₁ r₂ := by
    unfold ruleOrder
    rcases lt_trichotomy r₁.lift r₂.lift with h | h | h
    · exact Or.inr (Or.inl h)
    · rcases lt_trichotomy r₁.confidence r₂.confidence with h₂ | h₂ | h₂
      · exact Or.inr (Or.inr ⟨h.symm, Or.inl h₂⟩)
      · rcases le_total r₂.support r₁.support with h₃ | h₃
        · exact Or.inl (Or.inr ⟨h, Or.inr ⟨h₂, h₃⟩⟩)
        · exact Or.inr (Or.inr ⟨h.symm, Or.inr ⟨h₂.symm, h₃⟩⟩)
      · exact Or.inl (Or.inr ⟨h, Or.inl h₂⟩)
    · exact Or.inl (Or.inl h)

instance : IsTrans AssocRule ruleOrder where
  trans r₁ r₂ r₃ h₁₂ h₂₃ := by
    unfold ruleOrder at h₁₂ h₂₃ ⊢
    rcases h₁₂ with h₁₂ | ⟨e₁₂, h₁₂⟩
    · rcases h₂₃ with h₂₃ | ⟨e₂₃, h₂₃⟩
      · exact Or.inl (h₂₃.trans h₁₂)
      · exact Or.inl (e₂₃ ▸ h₁₂)
    · rcases h₂₃ with h₂₃ | ⟨e₂₃, h₂₃⟩
      · exact Or.inl (e₁₂ ▸ h₂₃)
      · refine Or.inr ⟨e₁₂.trans e₂₃, ?_⟩
        rcases h₁₂ with h₁₂ | ⟨f₁₂, h₁₂⟩
        · rcases h₂₃ with h₂₃ | ⟨f₂₃, h₂₃⟩
          · exact Or.inl (h₂₃.trans h₁₂)
          · exact Or.inl (f₂₃ ▸ h₁₂)
        · rcases h₂₃ with h₂₃ | ⟨f₂₃, h₂₃⟩
          · exact Or.inl (f₁₂ ▸ h₂₃)
          · exact Or.inr ⟨f₁₂.trans f₂₃, h₂₃.trans h₁₂⟩

/-- Modelled from the spec: the rule generator of section 4.6 (the
`association_rules` call of line 92 of `app.py`, plus the `head(10)`
of line 96): from every frequent itemset of size at least 2, every
proper bipartition becomes a rule; rules with lift at least `minLift`
are kept, sorted by `ruleOrder` and truncated to the first `topN`. -/
def association_rules (baskets : List (List String)) (θ minLift : ℚ) (topN : Nat) :
    List AssocRule :=
  let freq := apriori baskets θ
  let rs := (freq.filter (fun s => decide (2 ≤ s.length))).flatMap
    (fun s => (bipartitions s).map (fun p => mkRule baskets s p.1 p.2))
  ((rs.filter (fun r => decide (minLift ≤ r.lift))).insertionSort ruleOrder).take topN

/-- The displayed basket-analysis rules (lines 91-96 of `app.py`):
mining at `min_support=0.02`, rule threshold `lift ≥ 1.2`, first 10
rules shown. -/
def panier_rules (rows : List TransactionLine) : List AssocRule :=
  association_rules (transactions rows) (2 / 100) (12 / 10) 10

/-- The analytics payload of one `update_dashboard` evaluation: the
four KPI values and the data behind each figure and the rule table. -/
structure DashboardOutput where
  kpi_total_ca : ℚ
  kpi_nb_transac : Nat
  kpi_ticket_moyen : ℚ
  kpi_total_qty : Nat
  fig_mois : List (String × ℚ)
  fig_jour : List (String × Option ℚ)
  fig_heatmap : List (String × Option (List ℚ))
  fig_top : List (String × ℚ)
  table_rules : List AssocRule
deriving DecidableEq

/-- The callback `update_dashboard` (lines 53-104 of `app.py`) as a
pure function of the dataset and the two selections. -/
def update_dashboard (df : List TransactionLine) (store_selection mois_selection : List String) :
    DashboardOutput :=
  let f := df_filtered df store_selection mois_selection
  { kpi_total_ca := total_ca f
    kpi_nb_transac := nb_transac f
    kpi_ticket_moyen := ticket_moyen f
    kpi_total_qty := total_qty f
    fig_mois := ca_mois f
    fig_jour := ca_jour f
    fig_heatmap := pivot f
    fig_top := top_produits f 10
    table_rules := panier_rules f }

/-! ## Sample rows used by concrete witnesses and counterexamples -/

/-- A sample Monday-morning line, used to instantiate theorems at a
concrete input. -/
def sampleLine : TransactionLine :=
  { transaction_id := 1, store_location := "Astoria", product_detail := "Latte",
    transaction_qty := 1, unit_price := 3, heure := 9, jour_semaine := "Monday",
    mois := "2023-04" }

/-- A line whose product name sorts after the other sample products,
encountered first in the tie-break counterexample. -/
def ligneZebra : TransactionLine :=
  { transaction_id := 1, store_location := "Astoria", product_detail := "Zebra",
    transaction_qty := 1, unit_price := 100, heure := 9, jour_semaine := "Monday",
    mois := "2023-04" }

/-- A line with the same revenue as `ligneZebra` but an alphabetically
earlier product name, encountered second. -/
def ligneApple : TransactionLine :=
  { transaction_id := 2, store_location := "Astoria", product_detail := "Apple",
    transaction_qty := 1, unit_price := 100, heure := 9, jour_semaine := "Monday",
    mois := "2023-04" }

/-- The five example baskets of section 8 of the specification, with
items encoded as numbers. -/
def basketsExample : List (List Nat) := [[1, 2], [1, 2], [1, 3], [2, 3], [1, 2, 3]]

/-- The support threshold 0.4 of the section 8 example, given in
normalised form so that the kernel can evaluate with it. -/
def thetaExample : ℚ := ⟨2, 5, by decide, by decide⟩

/-! ## General helper lemmas -/

theorem sortedKeys_nodup {κ : Type} [LinearOrder κ] [DecidableEq κ] (l : List κ) :
    (sortedKeys l).Nodup :=
  ((List.perm_insertionSort _ _).nodup_iff).mpr (List.nodup_dedup l)

theorem mem_sortedKeys {κ : Type} [LinearOrder κ] [DecidableEq κ] {a : κ} {l : List κ} :
    a ∈ sortedKeys l ↔ a ∈ l := by
  rw [sortedKeys, List.mem_insertionSort, List.mem_dedup]

theorem sortedKeys_sorted {κ : Type} [LinearOrder κ] [DecidableEq κ] (l : List κ) :
    (sortedKeys l).Sorted (· ≤ ·) :=
  List.sorted_insertionSort _ _

theorem sortedKeys_sorted_lt {κ : Type} [LinearOrder κ] [DecidableEq κ] (l : List κ) :
    (sortedKeys l).Sorted (· < ·) :=
  ((sortedKeys_sorted l).and (sortedKeys_nodup l)).imp
    (fun h => lt_of_le_of_ne h.1 h.2)

theorem find?_keyed {κ β : Type} [DecidableEq κ] (K : List κ) (f : κ → β) (d : κ) :
    (K.map (fun k => (k, f k))).find? (fun p => decide (p.1 = d)) =
      if d ∈ K then some (d, f d) else none := by
  induction K with
  | nil => simp
  | cons k K ih =>
    by_cases hk : k = d
    · subst hk
      rw [List.map_cons, List.find?_cons_of_pos _ (by simp), if_pos (List.mem_cons_self k K)]
    · rw [List.map_cons, List.find?_cons_of_neg _ (by simpa using hk), ih]
      by_cases hd : d ∈ K
      · rw [if_pos hd, if_pos (List.mem_cons_of_mem k hd)]
      · rw [if_neg hd, if_neg (fun h => (List.mem_cons.mp h).elim (fun e => hk e.symm) hd)]

/-- The weekday series in closed form: one entry per canonical weekday,
carrying the summed revenue when the weekday occurs in the subset and a
missing value otherwise. -/
theorem ca_jour_eq (rows : List TransactionLine) :
    ca_jour rows = jour_order.map (fun d =>
      (d, if d ∈ rows.map (fun r => r.jour_semaine)
          then some (((rows.filter (fun r => decide (r.jour_semaine = d))).map CA).sum)
          else none)) := by
  unfold ca_jour reindex groupbySum
  refine List.map_congr_left (fun d _ => ?_)
  rw [find?_keyed]
  by_cases hd : d ∈ sortedKeys (rows.map fun r => r.jour_semaine)
  · rw [if_pos hd, if_pos (mem_sortedKeys.mp hd), Option.map_some']
  · rw [if_neg hd, if_neg (fun h => hd (mem_sortedKeys.mpr h)), Option.map_none']

theorem sum_map_ite_insert {κ : Type} [DecidableEq κ] (K : List κ) (g : κ → ℚ) (a : κ)
    (c : ℚ) (hnd : K.Nodup) (ha : a ∈ K) :
    (K.map (fun k => if a = k then c + g k else g k)).sum = c + (K.map g).sum := by
  induction K with
  | nil => cases ha
  | cons k K ih =>
    rcases List.mem_cons.mp ha with h | h
    · subst h
      have hnotin : a ∉ K := (List.nodup_cons.mp hnd).1
      rw [List.map_cons, List.map_cons, List.sum_cons, List.sum_cons, if_pos rfl,
        List.map_congr_left (fun b hb => if_neg (fun e : a = b => hnotin (e ▸ hb)))]
      ring
    · have hka : ¬ a = k := fun e => (List.nodup_cons.mp hnd).1 (e ▸ h)
      rw [List.map_cons, List.map_cons, List.sum_cons, List.sum_cons, if_neg hka,
        ih (List.nodup_cons.mp hnd).2 h]
      ring

/-- Grouping conservation: summing the per-group revenue over any
duplicate-free key list covering all rows gives the total revenue. -/
theorem groupsum_eq_total {κ : Type} [DecidableEq κ] (key : TransactionLine → κ)
    (K : List κ) (rows : List TransactionLine) (hnd : K.Nodup)
    (hcover : ∀ r ∈ rows, key r ∈ K) :
    (K.map (fun k => ((rows.filter (fun r => decide (key r = k))).map CA).sum)).sum =
      (rows.map CA).sum := by
  induction rows with
  | nil => simp
  | cons r rows ih =>
    have hr : key r ∈ K := hcover r (List.mem_cons_self r rows)
    have step : ∀ k : κ,
        (((r :: rows).filter (fun x => decide (key x = k))).map CA).sum =
          if key r = k then CA r + ((rows.filter (fun x => decide (key x = k))).map CA).sum
          else ((rows.filter (fun x => decide (key x = k))).map CA).sum := by
      intro k
      by_cases h : key r = k
      · rw [if_pos h, List.filter_cons_of_pos (by simpa using h), List.map_cons, List.sum_cons]
      · rw [if_neg h, List.filter_cons_of_neg (by simpa using h)]
    rw [List.map_congr_left (fun k _ => step k),
      sum_map_ite_insert K _ (key r) (CA r) hnd hr,
      ih (fun x hx => hcover x (List.mem_cons_of_mem r hx))]
    simp

theorem filterMap_ite_mem {κ β : Type} [DecidableEq κ] (L K : List κ) (f : κ → β) :
    (L.filterMap (fun d => if d ∈ K then some (f d) else none)) =
      (L.filter (fun d => decide (d ∈ K))).map f := by
  induction L with
  | nil => rfl
  | cons d L ih =>
    by_cases hd : d ∈ K
    · simp only [List.filterMap_cons, if_pos hd, ih]
      rw [show List.filter (fun d => decide (d ∈ K)) (d :: L) =
            d :: List.filter (fun d => decide (d ∈ K)) L from
          List.filter_cons_of_pos (by simpa using hd), List.map_cons]
    · simp only [List.filterMap_cons, if_neg hd, ih]
      rw [show List.filter (fun d => decide (d ∈ K)) (d :: L) =
            List.filter (fun d => decide (d ∈ K)) L from
          List.filter_cons_of_neg (by simpa using hd)]

/-! ## Claim theorems: filtering, KPIs, determinism, empty subsets -/

/-- Claim C10: the filter step is order-preserving — the filtered subset
is a subsequence of the dataset, and it holds exactly the rows (with
multiplicity) whose store is in the store selection and whose month is
in the month selection. -/
theorem df_filtered_order_preserving (df : List TransactionLine) (s m : List String) :
    (df_filtered df s m).Sublist df ∧
      ∀ r : TransactionLine, (df_filtered df s m).count r =
        if r.store_location ∈ s ∧ r.mois ∈ m then df.count r else 0 := by
  refine ⟨List.filter_sublist df, fun r => ?_⟩
  by_cases h : r.store_location ∈ s ∧ r.mois ∈ m
  · rw [if_pos h]
    exact List.count_filter (by simpa using h)
  · rw [if_neg h]
    refine List.count_eq_zero.mpr (fun hmem => ?_)
    have := List.of_mem_filter hmem
    exact h (by simpa using this)

/-- Claim C8: the average ticket equals total revenue over transaction
count when the transaction count is positive, and is defined as 0 (the
division guarded away) when the transaction count is 0. -/
theorem ticket_moyen_guarded (rows : List TransactionLine) :
    (nb_transac rows = 0 → ticket_moyen rows = 0) ∧
      (0 < nb_transac rows →
        ticket_moyen rows = total_ca rows / (nb_transac rows : ℚ)) := by
  constructor
  · intro h
    rw [ticket_moyen, if_neg (by omega)]
  · intro h
    rw [ticket_moyen, if_pos h]

/-- Claim C8 witness: at the empty subset the transaction count is 0 and
the average ticket is 0; at a one-line subset the count is positive and
the average ticket is the guarded quotient. -/
theorem ticket_moyen_guarded_witness :
    ticket_moyen [] = 0 ∧
      ticket_moyen [sampleLine] = total_ca [sampleLine] / (nb_transac [sampleLine] : ℚ) :=
  ⟨(ticket_moyen_guarded []).1 rfl, (ticket_moyen_guarded [sampleLine]).2 (by decide)⟩

/-- Claim C9: the whole query is deterministic — two evaluations of the
dashboard callback on the same dataset with equal selections return
identical results; the output depends on nothing but the inputs. -/
theorem update_dashboard_deterministic (df : List TransactionLine)
    (s₁ m₁ s₂ m₂ : List String) (hs : s₁ = s₂) (hm : m₁ = m₂) :
    update_dashboard df s₁ m₁ = update_dashboard df s₂ m₂ := by
  rw [hs, hm]

/-- Claim C9 witness: the determinism theorem applied at a concrete
dataset and selection. -/
theorem update_dashboard_deterministic_witness :
    update_dashboard [sampleLine] ["Astoria"] ["2023-04"] =
      update_dashboard [sampleLine] ["Astoria"] ["2023-04"] :=
  update_dashboard_deterministic [sampleLine] ["Astoria"] ["2023-04"] ["Astoria"] ["2023-04"]
    rfl rfl

/-- Claim C3 counterexample: on a selection whose filtered subset is
empty, the weekday series produced by the code is not empty — the
reindex keeps all seven canonical weekdays (each with a missing value),
so "the series are empty" fails as stated. -/
theorem ca_jour_empty_subset_not_nil :
    df_filtered [] [] [] = [] ∧ ca_jour (df_filtered [] [] []) ≠ [] := by decide

/-- Claim C3 (amended): a selection whose filtered subset is empty is
processed without error and yields well-defined outputs: all KPIs are
0, the monthly series, the top-product ranking and the rule list are
empty, and the weekday series and heatmap consist of the seven
canonical weekdays, each carrying a missing value. -/
theorem update_dashboard_empty_subset (df : List TransactionLine) (s m : List String)
    (h : df_filtered df s m = []) :
    total_ca (df_filtered df s m) = 0 ∧
    nb_transac (df_filtered df s m) = 0 ∧
    ticket_moyen (df_filtered df s m) = 0 ∧
    total_qty (df_filtered df s m) = 0 ∧
    ca_mois (df_filtered df s m) = [] ∧
    ca_jour (df_filtered df s m) = jour_order.map (fun d => (d, none)) ∧
    pivot (df_filtered df s m) = jour_order.map (fun d => (d, none)) ∧
    top_produits (df_filtered df s m) 10 = [] ∧
    panier_rules (df_filtered df s m) = [] := by
  rw [h]
  exact ⟨rfl, rfl, by decide, rfl, rfl, by decide, by decide, rfl, by decide⟩

/-- Claim C3 witness: the empty-subset theorem applied to the empty
selection on the empty dataset. -/
theorem update_dashboard_empty_subset_witness :
    total_ca (df_filtered [] [] []) = 0 ∧
    nb_transac (df_filtered [] [] []) = 0 ∧
    ticket_moyen (df_filtered [] [] []) = 0 ∧
    total_qty (df_filtered [] [] []) = 0 ∧
    ca_mois (df_filtered [] [] []) = [] ∧
    ca_jour (df_filtered [] [] []) = jour_order.map (fun d => (d, none)) ∧
    pivot (df_filtered [] [] []) = jour_order.map (fun d => (d, none)) ∧
    top_produits (df_filtered [] [] []) 10 = [] ∧
    panier_rules (df_filtered [] [] []) = [] :=
  update_dashboard_empty_subset [] [] [] rfl

/-- Claim C4 counterexample: with a single Monday line, the weekday
series carries Tuesday with a missing value, not with revenue 0 — the
source reindexes without `fillna(0)`. -/
theorem ca_jour_missing_weekday_is_nan :
    ("Tuesday", (none : Option ℚ)) ∈ ca_jour [sampleLine] ∧
    ("Tuesday", some (0 : ℚ)) ∉ ca_jour [sampleLine] := by decide

/-- Claim C4 (amended): the weekday series always has exactly the seven
canonical weekdays, in canonical order; a weekday present in the subset
carries its summed revenue, and a weekday with no matching rows carries
a missing value (pandas `NaN`), not 0. -/
theorem ca_jour_canonical (rows : List TransactionLine) :
    (ca_jour rows).map Prod.fst = jour_order ∧
    ∀ d v, ((d, v) ∈ ca_jour rows ↔ d ∈ jour_order ∧
      v = if d ∈ rows.map (fun r => r.jour_semaine)
          then some (((rows.filter (fun r => decide (r.jour_semaine = d))).map CA).sum)
          else none) := by
  rw [ca_jour_eq]
  constructor
  · rw [List.map_map]
    exact List.map_id jour_order
  · intro d v
    rw [List.mem_map]
    constructor
    · rintro ⟨k, hk, he⟩
      rcases Prod.mk.injEq .. ▸ he with ⟨h1, h2⟩
      subst h1
      exact ⟨hk, h2.symm⟩
    · rintro ⟨hd, rfl⟩
      exact ⟨d, hd, rfl⟩

/-- Claim C5 counterexample: with a single line at hour 9, the heatmap
columns are the observed hours `[9]` rather than the 24 hours 0–23, and
the Tuesday row is a missing value rather than a row of zeros. -/
theorem pivot_observed_hours_and_nan_rows :
    hoursOf [sampleLine] ≠ List.range 24 ∧
    ("Tuesday", (none : Option (List ℚ))) ∈ pivot [sampleLine] := by decide

/-- Claim C5 (amended): the heatmap rows are exactly the seven canonical
weekdays in canonical order; its columns are the distinct hours present
in the subset, in ascending order; a weekday present in the subset
carries one summed-revenue cell per observed hour column (an empty cell
summing to 0, via the `fillna(0)` that precedes the reindex), and a
weekday with no matching rows is a whole missing row. -/
theorem pivot_canonical (rows : List TransactionLine) :
    (pivot rows).map Prod.fst = jour_order ∧
    (hoursOf rows).Sorted (· < ·) ∧
    (∀ h, h ∈ hoursOf rows ↔ h ∈ rows.map (fun r => r.heure)) ∧
    ∀ d v, ((d, v) ∈ pivot rows ↔ d ∈ jour_order ∧
      v = if d ∈ rows.map (fun r => r.jour_semaine)
          then some ((hoursOf rows).map (fun h =>
            ((rows.filter (fun r => decide (r.jour_semaine = d ∧ r.heure = h))).map CA).sum))
          else none) := by
  refine ⟨?_, sortedKeys_sorted_lt _, fun h => mem_sortedKeys, fun d v => ?_⟩
  · rw [pivot, List.map_map]
    exact List.map_id jour_order
  · rw [pivot, List.mem_map]
    constructor
    · rintro ⟨k, hk, he⟩
      rcases Prod.mk.injEq .. ▸ he with ⟨h1, h2⟩
      subst h1
      exact ⟨hk, h2.symm⟩
    · rintro ⟨hd, rfl⟩
      exact ⟨d, hd, rfl⟩

/-- Claim C6: revenue accounting is conserved — the revenues of the
weekday series (summing its present values, as the pandas sum of a
series with missing entries does) and of the monthly series both add up
to the total revenue.  The hypothesis is the loader invariant of the
data model (section 3): every weekday name is one of the seven
canonical names. -/
theorem revenue_conserved (rows : List TransactionLine)
    (hj : ∀ r ∈ rows, r.jour_semaine ∈ jour_order) :
    seriesSum (ca_jour rows) = total_ca rows ∧
    ((ca_mois rows).map Prod.snd).sum = total_ca rows := by
  constructor
  · rw [seriesSum, ca_jour_eq, List.filterMap_map]
    rw [show (Prod.snd ∘ fun d =>
          (d, if d ∈ rows.map (fun r => r.jour_semaine)
              then some (((rows.filter (fun r => decide (r.jour_semaine = d))).map CA).sum)
              else none)) =
        (fun d => if d ∈ rows.map (fun r => r.jour_semaine)
              then some (((rows.filter (fun r => decide (r.jour_semaine = d))).map CA).sum)
              else none) from rfl]
    rw [filterMap_ite_mem jour_order (rows.map (fun r => r.jour_semaine))
      (fun d => ((rows.filter (fun r => decide (r.jour_semaine = d))).map CA).sum)]
    exact groupsum_eq_total (fun r => r.jour_semaine) _ rows
      ((show jour_order.Nodup by decide).filter _)
      (fun r hr => List.mem_filter.mpr
        ⟨hj r hr, by simpa using List.mem_map_of_mem (fun x => x.jour_semaine) hr⟩)
  · rw [ca_mois, groupbySum, List.map_map]
    rw [show (Prod.snd ∘ fun k =>
          (k, ((rows.filter (fun r => decide (r.mois = k))).map CA).sum)) =
        (fun k => ((rows.filter (fun r => decide (r.mois = k))).map CA).sum) from rfl]
    exact groupsum_eq_total (fun r => r.mois) _ rows (sortedKeys_nodup _)
      (fun r hr => mem_sortedKeys.mpr (List.mem_map_of_mem (fun x => x.mois) hr))

/-- Claim C6 witness: conservation applied to a concrete one-line
subset, whose weekday name is canonical. -/
theorem revenue_conserved_witness :
    seriesSum (ca_jour [sampleLine]) = total_ca [sampleLine] ∧
    ((ca_mois [sampleLine]).map Prod.snd).sum = total_ca [sampleLine] :=
  revenue_conserved [sampleLine] (by decide)

/-- Claim C2: every displayed association rule has lift at least 1.2,
the rule list is sorted descending by lift with ties broken by
descending confidence then descending support, and at most 10 rules
are shown. -/
theorem panier_rules_spec (rows : List TransactionLine) :
    (panier_rules rows).Forall (fun r => (12 : ℚ) / 10 ≤ r.lift) ∧
    (panier_rules rows).Pairwise ruleOrder ∧
    (panier_rules rows).length ≤ 10 := by
  simp only [panier_rules, association_rules]
  refine ⟨List.forall_iff_forall_mem.mpr (fun r hr => ?_), ?_, ?_⟩
  · have h1 := List.mem_insertionSort ruleOrder |>.mp (List.take_subset _ _ hr)
    have h2 := List.of_mem_filter h1
    exact of_decide_eq_true h2
  · exact List.Pairwise.sublist (List.take_sublist _ _)
      (List.sorted_insertionSort ruleOrder _)
  · exact List.length_take_le _ _

/-! ## Stability of the top-product selection -/

theorem pair_sublist_of_pairwise {β : Type} {R : β → β → Prop}
    (hasym : ∀ a b, R a b → ¬ R b a) :
    ∀ {l : List β} {x y : β}, l.Pairwise R → x ∈ l → y ∈ l → R x y → ([x, y]).Sublist l := by
  intro l
  induction l with
  | nil => intro x y _ hx; cases hx
  | cons a t ih =>
    intro x y hp hx hy hxy
    rcases List.pairwise_cons.mp hp with ⟨ha, ht⟩
    rcases List.mem_cons.mp hx with hx₂ | hx₂
    · subst hx₂
      rcases List.mem_cons.mp hy with hy₂ | hy₂
      · subst hy₂
        exact absurd hxy (hasym _ _ hxy)
      · exact List.Sublist.cons₂ x (List.singleton_sublist.mpr hy₂)
    · rcases List.mem_cons.mp hy with hy₂ | hy₂
      · subst hy₂
        exact absurd hxy (hasym _ _ (ha x hx₂))
      · exact List.Sublist.cons a (ih ht hx₂ hy₂ hxy)

theorem pair_sublist_getElem {β : Type} {x y : β} :
    ∀ {l : List β}, ([x, y]).Sublist l →
      ∃ i j, ∃ hi : i < l.length, ∃ hj : j < l.length, i < j ∧ l[i] = x ∧ l[j] = y := by
  intro l
  induction l with
  | nil => intro h; exact absurd h (by simp)
  | cons a t ih =>
    intro h
    cases h with
    | cons _ h₂ =>
      obtain ⟨i, j, hi, hj, hij, hx, hy⟩ := ih h₂
      exact ⟨i + 1, j + 1, by simpa using hi, by simpa using hj, by omega,
        by simpa using hx, by simpa using hy⟩
    | cons₂ _ h₂ =>
      obtain ⟨j, hj, he⟩ := List.getElem_of_mem (List.singleton_sublist.mp h₂)
      exact ⟨0, j + 1, by simp, by simpa using hj, by omega, by simp,
        by simpa using he⟩

/-- Stability: the descending-by-revenue insertion sort of a series
whose names are strictly increasing is ordered by `prodLex` — equal
revenues stay in ascending name order. -/
theorem insertionSort_revDesc_pairwise_prodLex (L : List (String × ℚ))
    (hL : L.Pairwise (fun p q => p.1 < q.1)) :
    (L.insertionSort revDesc).Pairwise prodLex := by
  have hnodup : L.Nodup := hL.imp (fun h => fun e => absurd (e ▸ h) (lt_irrefl _))
  have hout_nd : (L.insertionSort revDesc).Nodup :=
    ((List.perm_insertionSort revDesc L).nodup_iff).mpr hnodup
  have hsorted := List.pairwise_iff_getElem.mp (List.sorted_insertionSort revDesc L)
  rw [List.pairwise_iff_getElem]
  intro i j hi hj hij
  have hle : (L.insertionSort revDesc)[j].2 ≤ (L.insertionSort revDesc)[i].2 :=
    hsorted i j hi hj hij
  rcases lt_or_eq_of_le hle with hlt | heq
  · exact Or.inl hlt
  · refine Or.inr ⟨heq.symm, ?_⟩
    by_contra hname
    have hname₂ : (L.insertionSort revDesc)[j].1 < (L.insertionSort revDesc)[i].1 :=
      lt_of_not_le hname
    have hxmem : (L.insertionSort revDesc)[i] ∈ L :=
      (List.mem_insertionSort revDesc).mp (List.getElem_mem hi)
    have hymem : (L.insertionSort revDesc)[j] ∈ L :=
      (List.mem_insertionSort revDesc).mp (List.getElem_mem hj)
    have hpairL : ([(L.insertionSort revDesc)[j], (L.insertionSort revDesc)[i]]).Sublist L :=
      pair_sublist_of_pairwise (fun _ _ hab hba => absurd hba (lt_asymm hab)) hL
        hymem hxmem hname₂
    have hpairO : ([(L.insertionSort revDesc)[j], (L.insertionSort revDesc)[i]]).Sublist
        (L.insertionSort revDesc) :=
      List.pair_sublist_insertionSort (le_of_eq heq.symm) hpairL
    obtain ⟨i₂, j₂, hi₂, hj₂, hij₂, e₁, e₂⟩ := pair_sublist_getElem hpairO
    have hji : i₂ = j := (hout_nd.getElem_inj_iff).mp e₁
    have hij₃ : j₂ = i := (hout_nd.getElem_inj_iff).mp e₂
    omega

/-- The stable descending-by-revenue sort of the name-sorted series is
exactly its `prodLex` sort. -/
theorem insertionSort_revDesc_eq_prodLex (L : List (String × ℚ))
    (hL : L.Pairwise (fun p q => p.1 < q.1)) :
    L.insertionSort revDesc = L.insertionSort prodLex :=
  List.eq_of_perm_of_sorted
    ((List.perm_insertionSort revDesc L).trans (List.perm_insertionSort prodLex L).symm)
    (insertionSort_revDesc_pairwise_prodLex L hL)
    (List.sorted_insertionSort prodLex L)

/-- Claim C7 counterexample: two products with exactly equal revenue,
"Zebra" encountered first and "Apple" second; the displayed ranking
puts "Apple" first, because `groupby` sorts the series by product name
before the stable `nlargest` selection — the tie is not broken by
input encounter order. -/
theorem top_produits_tie_not_encounter_order :
    [ligneZebra, ligneApple].map (fun r => r.product_detail) = ["Zebra", "Apple"] ∧
    CA ligneZebra = CA ligneApple ∧
    (top_produits [ligneZebra, ligneApple] 2).map Prod.fst = ["Apple", "Zebra"] := by
  have hAZ : ("Apple" : String) < "Zebra" := String.lt_iff_toList_lt.mpr (by decide)
  refine ⟨rfl, rfl, ?_⟩
  have h1 : sortedKeys ([ligneZebra, ligneApple].map (fun r => r.product_detail)) =
      ["Apple", "Zebra"] := by
    rw [show [ligneZebra, ligneApple].map (fun r => r.product_detail) =
        (["Zebra", "Apple"] : List String) from rfl, sortedKeys,
      show (["Zebra", "Apple"] : List String).dedup = ["Zebra", "Apple"] from by decide]
    simp only [List.insertionSort, List.orderedInsert]
    rw [if_neg (not_le.mpr hAZ)]
  have h2 : groupbySum (fun r => r.product_detail) [ligneZebra, ligneApple] =
      [("Apple", CA ligneApple), ("Zebra", CA ligneZebra)] := by
    rw [groupbySum, h1, List.map_cons, List.map_cons, List.map_nil,
      show [ligneZebra, ligneApple].filter
          (fun r => decide (r.product_detail = "Apple")) = [ligneApple] from by decide,
      show [ligneZebra, ligneApple].filter
          (fun r => decide (r.product_detail = "Zebra")) = [ligneZebra] from by decide,
      List.map_cons, List.map_nil, List.map_cons, List.map_nil,
      List.sum_cons, List.sum_nil, List.sum_cons, List.sum_nil, add_zero, add_zero]
  have h4 : top_produits [ligneZebra, ligneApple] 2 =
      [("Apple", CA ligneApple), ("Zebra", CA ligneZebra)] := by
    rw [top_produits, h2]
    simp only [List.insertionSort, List.orderedInsert]
    rw [if_pos (show revDesc ("Apple", CA ligneApple) ("Zebra", CA ligneZebra)
      from le_of_eq rfl)]
    rfl
  rw [h4]
  rfl

/-- Claim C7 (amended): `top_produits` returns the first `n` entries of
the product-revenue table sorted by descending revenue with exact ties
broken by ascending product name (the order the grouped series is in
when the stable selection runs), hence at most `n` pairs, each pair a
product with its summed revenue. -/
theorem top_produits_spec (rows : List TransactionLine) (n : Nat) :
    top_produits rows n =
      ((groupbySum (fun r => r.product_detail) rows).insertionSort prodLex).take n ∧
    (top_produits rows n).Pairwise prodLex ∧
    (top_produits rows n).length ≤ n ∧
    top_produits rows n ⊆ groupbySum (fun r => r.product_detail) rows := by
  have hL : (groupbySum (fun r => r.product_detail) rows).Pairwise
      (fun p q => p.1 < q.1) := by
    rw [groupbySum, List.pairwise_map]
    simpa using sortedKeys_sorted_lt (rows.map (fun r => r.product_detail))
  have heq := insertionSort_revDesc_eq_prodLex _ hL
  refine ⟨by rw [top_produits, heq], ?_, List.length_take_le _ _, ?_⟩
  · exact List.Pairwise.sublist (List.take_sublist _ _)
      (insertionSort_revDesc_pairwise_prodLex _ hL)
  · intro x hx
    exact (List.mem_insertionSort revDesc).mp (List.take_subset _ _ hx)

/-! ## Anti-monotonicity of the frequent-itemset miner -/

theorem joinStep_some {α : Type} [LinearOrder α] [DecidableEq α] {a b S : List α}
    (h : joinStep a b = some S) : ∃ y, S = a ++ [y] := by
  unfold joinStep at h
  split at h
  · split at h
    · exact ⟨_, (Option.some_inj.mp h).symm⟩
    · cases h
  all_goals cases h

theorem mem_candidatesOf {α : Type} [LinearOrder α] [DecidableEq α]
    {prev : List (List α)} {S : List α}
    (h : S ∈ candidatesOf prev) : ∃ a ∈ prev, ∃ y, S = a ++ [y] := by
  rcases List.mem_flatMap.mp h with ⟨a, ha, hS⟩
  rcases List.mem_filterMap.mp hS with ⟨b, _, hj⟩
  exact ⟨a, ha, joinStep_some hj⟩

theorem mem_nextLevel {α : Type} [LinearOrder α] [DecidableEq α]
    {baskets : List (List α)} {θ : ℚ} {prev : List (List α)} {S : List α}
    (h : S ∈ nextLevel baskets θ prev) :
    (∃ a ∈ prev, ∃ y, S = a ++ [y]) ∧ ∀ i < S.length, S.eraseIdx i ∈ prev := by
  rcases List.mem_filter.mp h with ⟨h₁, _⟩
  rcases List.mem_filter.mp h₁ with ⟨h₂, hall⟩
  refine ⟨mem_candidatesOf h₂, fun i hi => ?_⟩
  exact of_decide_eq_true (List.all_eq_true.mp hall i (List.mem_range.mpr hi))

theorem aprioriLevel_length {α : Type} [LinearOrder α] [DecidableEq α]
    (baskets : List (List α)) (θ : ℚ) :
    ∀ k S, S ∈ aprioriLevel baskets θ k → S.length = k := by
  intro k
  induction k using Nat.strong_induction_on with
  | _ k ih =>
    rcases k with _ | k₁
    · intro S h
      simp [aprioriLevel] at h
    · rcases k₁ with _ | k₂
      · intro S h
        rcases List.mem_filter.mp h with ⟨h₁, _⟩
        rcases List.mem_map.mp h₁ with ⟨x, _, he⟩
        rw [← he]
        rfl
      · intro S h
        obtain ⟨⟨a, ha, y, rfl⟩, _⟩ :=
          mem_nextLevel (show S ∈ nextLevel baskets θ (aprioriLevel baskets θ (k₂ + 1))
            from h)
        have hal := ih (k₂ + 1) (by omega) a ha
        simp [hal]

theorem sublist_eraseIdx_of_proper {β : Type} {T S : List β} (h : T.Sublist S) :
    T.length < S.length → ∃ i, i < S.length ∧ T.Sublist (S.eraseIdx i) := by
  induction h with
  | slnil => intro hl; exact absurd hl (lt_irrefl 0)
  | cons a h ih =>
    intro _
    exact ⟨0, by simp, by simpa using h⟩
  | cons₂ a h ih =>
    intro hl
    obtain ⟨i, hi, hs⟩ := ih (by simpa using hl)
    refine ⟨i + 1, by simpa using hi, ?_⟩
    rw [List.eraseIdx_cons_succ]
    exact List.Sublist.cons₂ a hs

theorem aprioriLevel_antimonotone {α : Type} [LinearOrder α] [DecidableEq α]
    (baskets : List (List α)) (θ : ℚ) :
    ∀ k S T, S ∈ aprioriLevel baskets θ k → T.Sublist S → T ≠ [] →
      T.length < S.length → ∃ j, 1 ≤ j ∧ j < k ∧ T ∈ aprioriLevel baskets θ j := by
  intro k
  induction k using Nat.strong_induction_on with
  | _ k ih =>
    rcases k with _ | k₁
    · intro S T hS
      simp [aprioriLevel] at hS
    · rcases k₁ with _ | k₂
      · intro S T hS hsub hne hlen
        have h1 := aprioriLevel_length baskets θ 1 S hS
        have h0 : T.length = 0 := by omega
        exact absurd (List.length_eq_zero.mp h0) hne
      · intro S T hS hsub hne hlen
        obtain ⟨_, herase⟩ :=
          mem_nextLevel (show S ∈ nextLevel baskets θ (aprioriLevel baskets θ (k₂ + 1))
            from hS)
        obtain ⟨i, hi, hTi⟩ := sublist_eraseIdx_of_proper hsub hlen
        have hE : S.eraseIdx i ∈ aprioriLevel baskets θ (k₂ + 1) := herase i hi
        by_cases hTE : T = S.eraseIdx i
        · exact ⟨k₂ + 1, by omega, by omega, hTE ▸ hE⟩
        · have hlen₂ : T.length < (S.eraseIdx i).length := by
            rcases lt_or_eq_of_le hTi.length_le with h | h
            · exact h
            · exact absurd (hTi.eq_of_length h) hTE
          obtain ⟨j, hj1, hj2, hj⟩ := ih (k₂ + 1) (by omega) (S.eraseIdx i) T hE hTi hne hlen₂
          exact ⟨j, hj1, by omega, hj⟩

/-- Claim C1: anti-monotonicity of the miner — for every basket
sequence and every support threshold, every proper non-empty subset of
an itemset reported frequent is itself reported frequent.  Itemsets are
sorted duplicate-free lists, so the subsets of an itemset are exactly
its sublists; the pruning step of the modelled Apriori loop is what
guarantees the property, at every threshold. -/
theorem apriori_antimonotone {α : Type} [LinearOrder α] [DecidableEq α]
    (baskets : List (List α)) (θ : ℚ) (S T : List α)
    (hS : S ∈ apriori baskets θ) (hT : T.Sublist S) (hne : T ≠ []) (hTS : T ≠ S) :
    T ∈ apriori baskets θ := by
  rcases List.mem_flatMap.mp hS with ⟨k, hk, hSk⟩
  rcases List.mem_range'_1.mp hk with ⟨hk1, hk2⟩
  have hlen : T.length < S.length := by
    rcases lt_or_eq_of_le hT.length_le with h | h
    · exact h
    · exact absurd (hT.eq_of_length h) hTS
  obtain ⟨j, hj1, hj2, hj⟩ := aprioriLevel_antimonotone baskets θ k S T hSk hT hne hlen
  exact List.mem_flatMap.mpr ⟨j, List.mem_range'_1.mpr ⟨hj1, by omega⟩, hj⟩

set_option maxRecDepth 8000 in
/-- Claim C1 witness: the miner on the example baskets of section 8 at
threshold 0.4 reports the pair of items 1 and 2 frequent, and the
theorem instantiated there puts its proper non-empty subset, the
singleton of item 1, among the reported itemsets. -/
theorem apriori_antimonotone_witness :
    [1, 2] ∈ apriori basketsExample thetaExample ∧
    ([1] : List Nat).Sublist [1, 2] ∧ ([1] : List Nat) ≠ [] ∧
    ([1] : List Nat) ≠ [1, 2] ∧
    [1] ∈ apriori basketsExample thetaExample :=
  ⟨by decide, by decide, by decide, by decide,
    apriori_antimonotone basketsExample thetaExample [1, 2] [1] (by decide) (by decide)
      (by decide) (by decide)⟩

/-- The integer retain test of the modelled miner agrees with the
specification predicate `minSupport ≤ support` whenever at least one
basket exists. -/
theorem isFrequent_iff_support {α : Type} [DecidableEq α]
    (baskets : List (List α)) (θ : ℚ) (s : List α) (h : baskets ≠ []) :
    isFrequent baskets θ s = true ↔ θ ≤ support baskets s := by
  have hn : (0 : ℚ) < (baskets.length : ℚ) := by
    exact_mod_cast List.length_pos.mpr h
  have hden : (0 : ℚ) < ((θ.den : ℤ) : ℚ) := by
    exact_mod_cast θ.den_pos
  rw [isFrequent, decide_eq_true_eq, support, le_div_iff₀ hn]
  conv_rhs => rw [show θ = ((θ.num : ℚ) / ((θ.den : ℤ) : ℚ)) from by
    push_cast
    exact (Rat.num_div_den θ).symm]
  rw [div_mul_eq_mul_div, div_le_iff₀ hden]
  constructor <;> intro h₂ <;> exact_mod_cast h₂
